import Mathlib

/-!
Verification of the canary-firmware split-keyboard firmware core.

The Rust sources are shallowly embedded: machine integers (`u8`, `u64`)
become `Nat` (no arithmetic here overflows), GPIO waveforms become
functions `Nat → Bool` from nanoseconds to line level (`true` = high),
fallible operations return `Except String`/`Option` mirroring the
`Result`/`Option` of the source, and the pull-based `Stream` state
machines (`Keypin`, `Debounced`, `Matrix`) become explicit step
functions on their state types, driven by lists of environment inputs.
-/

/-! ## Wire protocol (src/sync.rs) -/

/-- `BIT_DELAY_NS` from src/sync.rs: 3 ms per bit. -/
def BIT_DELAY_NS : Nat := 3000000

/-- `MAX_MESSAGE_LEN` from src/sync.rs. -/
def MAX_MESSAGE_LEN : Nat := 2

/-- Data bit `i` (MSB first) of a byte, as in `(byte >> (7 - i)) & 1`
in both `send_byte` and the reconstruction in `receive_byte`. -/
def dataBit (byte i : Nat) : Nat := byte / 2 ^ (7 - i) % 2

/-- The even-parity bit `send_byte` computes by XOR-folding the 8 data
bits (`parity ^= bit`). -/
def sendParity (byte : Nat) : Nat :=
  (List.range 8).foldl (fun p i => p ^^^ dataBit byte i) 0

/-- The waveform `send_byte` (src/sync.rs lines 155-201) places on the
wire, as a function of nanoseconds since transmission began (`t0`),
assuming ideal timer behaviour: low sync pulse for one bit period,
released high for the second bit period, then the 8 data bits MSB first
for one bit period each, then the even parity bit, then idle high. -/
def send_byte_level (byte t : Nat) : Bool :=
  if t < BIT_DELAY_NS then false
  else if t < 2 * BIT_DELAY_NS then true
  else if t < 10 * BIT_DELAY_NS then
    dataBit byte ((t - 2 * BIT_DELAY_NS) / BIT_DELAY_NS) = 1
  else if t < 11 * BIT_DELAY_NS then sendParity byte = 1
  else true

/-- The nanosecond offset (from the observed falling edge) at which
`receive_byte` samples its `i`-th bit (`i = 8` is the parity bit):
`BIT_DELAY_NS * 2 + BIT_DELAY_NS / 2 + BIT_DELAY_NS * i`. -/
def sampleOffset (i : Nat) : Nat :=
  BIT_DELAY_NS * 2 + BIT_DELAY_NS / 2 + BIT_DELAY_NS * i

/-- `receive_byte` (src/sync.rs lines 47-99) under ideal timing: sample
the line at the 9 sample offsets, reassemble the byte MSB first
(`byte |= bit << (7 - i)`), XOR-fold the running parity, and fail with
the parity error if the computed parity differs from the sampled parity
bit.  The waveform is passed in with the observed falling edge at
time 0. -/
def receive_byte (level : Nat → Bool) : Except String Nat :=
  let sample := fun i => if level (sampleOffset i) then 1 else 0
  let byte := (List.range 8).foldl (fun b i => b + sample i * 2 ^ (7 - i)) 0
  let parity := (List.range 8).foldl (fun p i => p ^^^ sample i) 0
  let parity_bit := sample 8
  if parity ≠ parity_bit then Except.error "parity check failed"
  else Except.ok byte

/-- Corruption of a single data bit on the wire: during the cell of data
bit `i` the line level is inverted; everywhere else the waveform is
untouched. -/
def flipDataBit (i : Nat) (level : Nat → Bool) : Nat → Bool := fun t =>
  if 2 * BIT_DELAY_NS + BIT_DELAY_NS * i ≤ t ∧
      t < 2 * BIT_DELAY_NS + BIT_DELAY_NS * (i + 1) then !(level t)
  else level t

/-! ## Message codec (src/sync.rs) -/

/-- `SyncMessage` from src/sync.rs; the payload byte is a `Nat` standing
for a `u8`. -/
inductive SyncMessage
  | Test (val : Nat)
deriving DecidableEq

/-- `SyncMessage::msg_len`: the static tag registry, tag byte to payload
byte count. -/
def SyncMessage.msg_len (msg_type : Nat) : Option Nat :=
  match msg_type with
  | 1 => some 1
  | _ => none

/-- `SyncMessage::to_bytes`: the encoded buffer together with the number
of valid bytes. -/
def SyncMessage.to_bytes : SyncMessage → List Nat × Nat
  | .Test val => ([1, val], 2)

/-- `SyncMessage::from_bytes`: first byte selects the variant, the `?`
operators on `first`/`get` become `Option` binds. -/
def SyncMessage.from_bytes (bytes : List Nat) : Option SyncMessage :=
  match bytes.head? with
  | none => none
  | some b =>
    match b with
    | 1 =>
      match bytes[1]? with
      | some v => some (.Test v)
      | none => none
    | _ => none

/-! ## Frame reader (src/sync.rs, `read_sync_message`) -/

deriving instance DecidableEq for Except

/-- The wire, from the frame reader's point of view: the outcome of the
`k`-th `receive_byte` call of this frame. -/
def ByteSource : Type := Nat → Except String Nat

/-- The payload loop of `read_sync_message`
(`for i in 0..payload_len { bytes[i + 1] = receive_byte(pin).await? }`):
read `len` further bytes starting at call index `i + 1`, stopping at the
first error (`?`), and report how many `receive_byte` calls were made. -/
def readPayloadFrom (f : ByteSource) (i : Nat) : Nat → Except String (List Nat) × Nat
  | 0 => (Except.ok [], 0)
  | len + 1 =>
    match f (i + 1) with
    | Except.error e => (Except.error e, 1)
    | Except.ok b =>
      match readPayloadFrom f (i + 1) len with
      | (Except.error e, n) => (Except.error e, n + 1)
      | (Except.ok rest, n) => (Except.ok (b :: rest), n + 1)

/-- The buffer assembly of `read_sync_message`: a `MAX_MESSAGE_LEN` zero
buffer, `bytes[0] = msg_type`, `bytes[i + 1] =` the `i`-th payload byte,
then the slice `&bytes[..payload_len + 1]`. -/
def assembleFrame (msg_type : Nat) (payload : List Nat) : List Nat :=
  let bytes := (List.replicate MAX_MESSAGE_LEN 0).set 0 msg_type
  let bytes := (List.range payload.length).foldl
    (fun bs i => bs.set (i + 1) (payload.getD i 0)) bytes
  bytes.take (payload.length + 1)

/-- `read_sync_message` (src/sync.rs lines 101-133) over a byte source:
read the tag byte, look its payload length up in the registry (failing
with the unknown-type error and reading nothing further when absent),
read the payload bytes, and decode the assembled slice.  Returns the
result together with the total number of `receive_byte` calls made. -/
def read_sync_message (f : ByteSource) : Except String SyncMessage × Nat :=
  match f 0 with
  | Except.error e => (Except.error e, 1)
  | Except.ok msg_type =>
    match SyncMessage.msg_len msg_type with
    | none => (Except.error "unknown message type", 1)
    | some payload_len =>
      match readPayloadFrom f 0 payload_len with
      | (Except.error e, n) => (Except.error e, 1 + n)
      | (Except.ok payload, n) =>
        match SyncMessage.from_bytes (assembleFrame msg_type payload) with
        | some m => (Except.ok m, 1 + n)
        | none => (Except.error "failed to decode message", 1 + n)

/-! ## Key input pipeline (src/keypin.rs, src/debounce.rs) -/

/-- `KeypinEvent` from src/keypin.rs. -/
inductive KeypinEvent
  | Down
  | Up
deriving DecidableEq

/-- `core::task::Poll`, as used by the pull-based stream state machines;
`Ready` carries the stream item, which is an `Option` (`none` meaning
the stream has ended). -/
inductive Poll (α : Type)
  | Ready (a : α)
  | Pending
deriving DecidableEq

/-- `DEBOUNCE_MS` from src/debounce.rs. -/
def DEBOUNCE_MS : Nat := 15

/-- One call of `Debounced::poll_next` (src/debounce.rs lines 31-55):
from the stored `last_event_time`, the current time `now`
(milliseconds) and the inner stream's poll result, compute the poll
result passed downstream and the updated `last_event_time`.  An inner
event is forwarded when `last_event_time` is unset or the guard window
has elapsed since it; otherwise the event is discarded (`Pending`,
state unchanged).  `Instant::duration_since` becomes truncated `Nat`
subtraction. -/
def debounceStep (last_event_time : Option Nat) (now : Nat)
    (inner : Poll (Option KeypinEvent)) :
    Poll (Option KeypinEvent) × Option Nat :=
  match inner with
  | .Ready (some event) =>
    match last_event_time with
    | none => (.Ready (some event), some now)
    | some last =>
      if DEBOUNCE_MS ≤ now - last then (.Ready (some event), some now)
      else (.Pending, some last)
  | .Ready none => (.Ready none, last_event_time)
  | .Pending => (.Pending, last_event_time)

/-- Drive a `Debounced` stream through a list of poll calls, each given
as (time of the call, inner poll result); collect the forwarded events
with their forwarding times, and the final `last_event_time`. -/
def debounceRun (last_event_time : Option Nat) :
    List (Nat × Poll (Option KeypinEvent)) →
    List (Nat × KeypinEvent) × Option Nat
  | [] => ([], last_event_time)
  | (now, inner) :: rest =>
    let step := debounceStep last_event_time now inner
    let r := debounceRun step.2 rest
    match step.1 with
    | .Ready (some event) => ((now, event) :: r.1, r.2)
    | _ => r

/-! ## Edge source (src/keypin.rs) and matrix scanner (src/matrix.rs) -/

/-- A raw electrical edge on a pin: `Falling` completes `wait_for_low`,
`Rising` completes `wait_for_high`. -/
inductive RawEdge
  | Falling
  | Rising
deriving DecidableEq

/-- One call of `Keypin::poll_next` (src/keypin.rs lines 30-60) at the
moment a raw edge occurs: while `is_down` the source waits for a rising
edge, emits `Up` on it and clears the state; while not down it waits
for a falling edge, emits `Down` on it and sets the state; the opposite
edge leaves the wait pending with the state unchanged. -/
def keypinStep (is_down : Bool) (edge : RawEdge) : Option KeypinEvent × Bool :=
  if is_down then
    match edge with
    | .Rising => (some .Up, false)
    | .Falling => (none, true)
  else
    match edge with
    | .Falling => (some .Down, true)
    | .Rising => (none, false)

/-- Feed a sequence of raw edges to a `Keypin`, collecting the emitted
events. -/
def keypinRun (is_down : Bool) : List RawEdge → List KeypinEvent
  | [] => []
  | e :: rest =>
    let step := keypinStep is_down e
    match step.1 with
    | some ev => ev :: keypinRun step.2 rest
    | none => keypinRun step.2 rest

/-- The event a pin in state `is_down` will emit next. -/
def nextEmit (is_down : Bool) : KeypinEvent :=
  if is_down then KeypinEvent.Up else KeypinEvent.Down

/-- The other event kind. -/
def otherEvent : KeypinEvent → KeypinEvent
  | .Down => .Up
  | .Up => .Down

/-- The list strictly alternates event kinds, starting with `k`. -/
def alternatingFrom (k : KeypinEvent) : List KeypinEvent → Bool
  | [] => true
  | e :: rest => e == k && alternatingFrom (otherEvent k) rest

/-- `MatrixEvent` from src/matrix.rs. -/
inductive MatrixEvent
  | KeyDown (label : String) (keycode : Option Char)
  | KeyUp (label : String) (keycode : Option Char)
deriving DecidableEq

/-- One debounced pin as `Matrix::poll_next` sees it: the wrapped pin's
static label and keycode metadata, and the poll results its `Debounced`
wrapper will yield on successive polls (the environment of the scan). -/
structure DebouncedPin where
  label : String
  keycode : Option Char
  polls : List (Poll (Option KeypinEvent))
deriving DecidableEq

/-- Poll one debounced pin: consume its next poll result (`Pending`
when the environment list is exhausted). -/
def pinPoll (p : DebouncedPin) : Poll (Option KeypinEvent) × DebouncedPin :=
  match p.polls with
  | [] => (.Pending, p)
  | r :: rest => (r, { p with polls := rest })

/-- The event tagging of `Matrix::poll_next`: `Down` becomes `KeyDown`
with the pin's label and keycode, `Up` becomes `KeyUp`. -/
def toMatrixEvent (event : KeypinEvent) (label : String)
    (keycode : Option Char) : MatrixEvent :=
  match event with
  | .Down => .KeyDown label keycode
  | .Up => .KeyUp label keycode

/-- `Matrix::poll_next` (src/matrix.rs lines 26-47): iterate the pins in
fixed ascending index order, polling each; on the first
`Ready(Some(event))` return that event tagged with the pin's label and
keycode, leaving every later pin unpolled; if no pin is ready, return
`Pending`. -/
def matrixPollNext : List DebouncedPin → Poll (Option MatrixEvent) × List DebouncedPin
  | [] => (.Pending, [])
  | p :: rest =>
    let r := pinPoll p
    match r.1 with
    | .Ready (some event) =>
      (.Ready (some (toMatrixEvent event p.label p.keycode)), r.2 :: rest)
    | _ =>
      let s := matrixPollNext rest
      (s.1, r.2 :: s.2)

/-- Whether a pin's next poll result is ready with an event. -/
def headReady (p : DebouncedPin) : Bool :=
  match p.polls with
  | Poll.Ready (some _) :: _ => true
  | _ => false

/-! ## Primary role loop and receiver spin (src/sync.rs) -/

/-- Capacity of the outbound channel `primary` pushes decoded messages
onto (`Channel<ThreadModeRawMutex, SyncMessage, 8>`). -/
def RX_CHANNEL_CAPACITY : Nat := 8

/-- Sending on the bounded channel: enqueue when a slot is free;
`none` means the sender must suspend until a slot frees up. -/
def channelSend (chan : List SyncMessage) (m : SyncMessage) :
    Option (List SyncMessage) :=
  if chan.length < RX_CHANNEL_CAPACITY then some (chan ++ [m]) else none

/-- The observable outcome of one iteration of the `primary` loop
body. -/
inductive PrimaryStep
  | continued (logged : Option String) (chan : List SyncMessage)
  | suspendedOnFullChannel (m : SyncMessage)
  | terminated (e : Option String)
deriving DecidableEq

/-- One iteration of the `primary` receive loop (src/sync.rs lines
141-152): a decode error is logged and the loop continues with the
channel untouched (the failed frame is gone, not retried); a decoded
message is sent on the outbound channel.  The loop body has no exit or
error-propagation path, so `terminated` is never produced. -/
def primaryIter (res : Except String SyncMessage)
    (chan : List SyncMessage) : PrimaryStep :=
  match res with
  | Except.error e => PrimaryStep.continued (some e) chan
  | Except.ok m =>
    match channelSend chan m with
    | some chan' => PrimaryStep.continued none chan'
    | none => PrimaryStep.suspendedOnFullChannel m

/-- The busy-wait `while pin.is_low() {}` of `receive_byte` (src/sync.rs
line 58): starting at nanosecond `t`, the first instant within `fuel`
steps at which the line reads high (the instant the spin exits), or
`none` when the line stays low for the whole window. -/
def firstHighFrom (level : Nat → Bool) : Nat → Nat → Option Nat
  | _, 0 => none
  | t, fuel + 1 => if level t then some t else firstHighFrom level (t + 1) fuel

/-! ## Theorems -/

set_option maxRecDepth 100000

/-- Claim C1: transmitting any byte with `send_byte` and sampling the
waveform with `receive_byte` yields `Ok` of that byte when no bit is
corrupted; flipping exactly one of the 8 data bits makes the parity
check fail deterministically; and the transmitted parity bit makes the
total number of 1-bits among data plus parity even. -/
theorem C1_send_receive_roundtrip_and_parity :
    (∀ b : Fin 256, receive_byte (send_byte_level b.val) = Except.ok b.val) ∧
    (∀ b : Fin 256, ∀ i : Fin 8,
      receive_byte (flipDataBit i.val (send_byte_level b.val)) =
        Except.error "parity check failed") ∧
    (∀ b : Fin 256,
      ((List.range 8).foldl (fun s i => s + dataBit b.val i) 0 + sendParity b.val) % 2
        = 0) := by
  refine ⟨by decide, by decide, by decide⟩

/-- Claim C2: every `SyncMessage` round-trips: encoding with `to_bytes`
to a `(bytes, len)` pair and decoding the first `len` bytes with
`from_bytes` recovers the message. -/
theorem C2_sync_message_roundtrip (m : SyncMessage) :
    SyncMessage.from_bytes ((m.to_bytes.1).take m.to_bytes.2) = some m := by
  cases m with
  | Test val => rfl

/-- A successful payload loop returns exactly as many bytes as requested,
and makes exactly that many `receive_byte` calls. -/
theorem readPayloadFrom_ok_spec (f : ByteSource) :
    ∀ (len i : Nat) (payload : List Nat) (n : Nat),
      readPayloadFrom f i len = (Except.ok payload, n) →
      payload.length = len ∧ n = len := by
  intro len
  induction len with
  | zero =>
    intro i payload n h
    simp only [readPayloadFrom, Prod.mk.injEq] at h
    obtain ⟨h1, h2⟩ := h
    cases h1
    exact ⟨rfl, h2.symm⟩
  | succ k ih =>
    intro i payload n h
    unfold readPayloadFrom at h
    cases hf : f (i + 1) with
    | error e => rw [hf] at h; simp at h
    | ok b =>
      rw [hf] at h
      cases hr : readPayloadFrom f (i + 1) k with
      | mk res m =>
        rw [hr] at h
        cases res with
        | error e => simp at h
        | ok rest =>
          simp only [Prod.mk.injEq, Except.ok.injEq] at h
          obtain ⟨h1, h2⟩ := h
          obtain ⟨hl, hn⟩ := ih (i + 1) rest m hr
          subst h1 h2
          simp [hl, hn]

/-- For every tag in the registry, decoding the assembled
tag-plus-payload slice succeeds. -/
theorem from_bytes_assembleFrame_registered (t n : Nat)
    (h : SyncMessage.msg_len t = some n) (payload : List Nat)
    (hlen : payload.length = n) :
    ∃ m, SyncMessage.from_bytes (assembleFrame t payload) = some m := by
  rcases t with _ | t
  · exact absurd h (by simp [SyncMessage.msg_len])
  rcases t with _ | t
  · have hn : n = 1 := by
      have h' := h
      simp only [SyncMessage.msg_len, Option.some.injEq] at h'
      exact h'.symm
    subst hn
    obtain ⟨p, rfl⟩ := List.length_eq_one.mp hlen
    exact ⟨SyncMessage.Test p, rfl⟩
  · exact absurd h (by simp [SyncMessage.msg_len])

/-- Claim C3: when the tag byte is read successfully but is not in the
static registry, `read_sync_message` fails with the unknown-message-type
error after exactly one `receive_byte` call — the tag byte itself — so
zero payload bytes are read from the wire. -/
theorem C3_unknown_tag_fails_immediately (f : ByteSource) (t : Nat)
    (h1 : f 0 = Except.ok t) (h2 : SyncMessage.msg_len t = none) :
    read_sync_message f = (Except.error "unknown message type", 1) := by
  simp only [read_sync_message, h1, h2]

/-- Witness for C3 at the concrete tag byte 7 (not in the registry). -/
theorem C3_witness :
    read_sync_message (fun _ => Except.ok 7) =
      (Except.error "unknown message type", 1) :=
  C3_unknown_tag_fails_immediately (fun _ => Except.ok 7) 7 rfl rfl

/-- From a `last_event_time` of `some t`, with poll times nondecreasing
and all at least `t`, the forwarded events are pairwise at least the
guard window apart and all at least one guard window after `t`. -/
theorem debounceRun_some_separated :
    ∀ (steps : List (Nat × Poll (Option KeypinEvent))) (t : Nat),
      (steps.map Prod.fst).Pairwise (· ≤ ·) →
      (∀ s ∈ steps, t ≤ s.1) →
      ((debounceRun (some t) steps).1.map Prod.fst).Pairwise
        (fun a b => a + DEBOUNCE_MS ≤ b) ∧
      ∀ e ∈ (debounceRun (some t) steps).1, t + DEBOUNCE_MS ≤ e.1 := by
  intro steps
  induction steps with
  | nil => intro t _ _; exact ⟨List.Pairwise.nil, by simp [debounceRun]⟩
  | cons s rest ih =>
    intro t hmono hge
    obtain ⟨now, inner⟩ := s
    rw [List.map_cons, List.pairwise_cons] at hmono
    obtain ⟨hnow, hmrest⟩ := hmono
    have hnow' : ∀ s' ∈ rest, now ≤ s'.1 := by
      intro s' hs'
      exact hnow s'.1 (List.mem_map.mpr ⟨s', hs', rfl⟩)
    have htnow : t ≤ now := hge (now, inner) (List.mem_cons_self _ _)
    cases inner with
    | Pending =>
      have := ih t hmrest (fun s' hs' => hge s' (List.mem_cons_of_mem _ hs'))
      simpa [debounceRun, debounceStep] using this
    | Ready item =>
      cases item with
      | none =>
        have := ih t hmrest (fun s' hs' => hge s' (List.mem_cons_of_mem _ hs'))
        simpa [debounceRun, debounceStep] using this
      | some event =>
        by_cases hw : DEBOUNCE_MS ≤ now - t
        · obtain ⟨hsep, hbound⟩ := ih now hmrest hnow'
          have hemit : t + DEBOUNCE_MS ≤ now := by omega
          constructor
          · simp only [debounceRun, debounceStep, hw, if_pos, List.map_cons]
            rw [List.pairwise_cons]
            refine ⟨?_, hsep⟩
            intro b hb
            obtain ⟨e, he, rfl⟩ := List.mem_map.mp hb
            exact le_trans (by omega) (hbound e he)
          · simp only [debounceRun, debounceStep, hw, if_pos]
            intro e he
            rcases List.mem_cons.mp he with rfl | he'
            · exact hemit
            · exact le_trans (by omega) (hbound e he')
        · have := ih t hmrest (fun s' hs' => hge s' (List.mem_cons_of_mem _ hs'))
          simpa [debounceRun, debounceStep, hw] using this

/-- Claim C4: any two events forwarded by the same `Debounced` stream
(initial state: no `last_event_time`), with poll times taken from a
monotone clock, are forwarded at times at least `DEBOUNCE_MS = 15` ms
apart. -/
theorem C4_debounced_events_guard_window_apart
    (steps : List (Nat × Poll (Option KeypinEvent)))
    (hmono : (steps.map Prod.fst).Pairwise (· ≤ ·)) :
    ((debounceRun none steps).1.map Prod.fst).Pairwise
      (fun a b => a + DEBOUNCE_MS ≤ b) := by
  induction steps with
  | nil => exact List.Pairwise.nil
  | cons s rest ih =>
    obtain ⟨now, inner⟩ := s
    rw [List.map_cons, List.pairwise_cons] at hmono
    obtain ⟨hnow, hmrest⟩ := hmono
    have hnow' : ∀ s' ∈ rest, now ≤ s'.1 := by
      intro s' hs'
      exact hnow s'.1 (List.mem_map.mpr ⟨s', hs', rfl⟩)
    cases inner with
    | Pending => simpa [debounceRun, debounceStep] using ih hmrest
    | Ready item =>
      cases item with
      | none => simpa [debounceRun, debounceStep] using ih hmrest
      | some event =>
        obtain ⟨hsep, hbound⟩ := debounceRun_some_separated rest now hmrest hnow'
        simp only [debounceRun, debounceStep, List.map_cons]
        rw [List.pairwise_cons]
        refine ⟨?_, hsep⟩
        intro b hb
        obtain ⟨e, he, rfl⟩ := List.mem_map.mp hb
        exact hbound e he

/-- Witness for C4: two inner events 20 ms apart, both forwarded. -/
theorem C4_witness :
    ((debounceRun none
        [(100, Poll.Ready (some KeypinEvent.Down)),
         (120, Poll.Ready (some KeypinEvent.Up))]).1.map Prod.fst).Pairwise
      (fun a b => a + DEBOUNCE_MS ≤ b) :=
  C4_debounced_events_guard_window_apart
    [(100, Poll.Ready (some KeypinEvent.Down)),
     (120, Poll.Ready (some KeypinEvent.Up))] (by decide)

/-- Claim C6: an inner event arriving inside the guard window is
discarded, not queued — the stream returns `Pending` and does not
update `last_event_time`; in the burst Down at `t0`, Up at `t0 + 3` ms,
Down at `t0 + 6` ms, only the first Down is forwarded (leaving
`last_event_time = some t0`), and any further inner event strictly
before `t0 + 15` ms is likewise dropped with the state still `some
t0`. -/
theorem C6_debounce_burst_discards (t0 last now t : Nat)
    (ev ev' : KeypinEvent)
    (h1 : now - last < DEBOUNCE_MS) (h2 : t < t0 + DEBOUNCE_MS) :
    debounceStep (some last) now (Poll.Ready (some ev)) =
      (Poll.Pending, some last) ∧
    debounceRun none
        [(t0, Poll.Ready (some KeypinEvent.Down)),
         (t0 + 3, Poll.Ready (some KeypinEvent.Up)),
         (t0 + 6, Poll.Ready (some KeypinEvent.Down))] =
      ([(t0, KeypinEvent.Down)], some t0) ∧
    debounceStep (some t0) t (Poll.Ready (some ev')) =
      (Poll.Pending, some t0) := by
  have h1' : now - last < 15 := h1
  have h2' : t < t0 + 15 := h2
  refine ⟨?_, ?_, ?_⟩
  · have hn : ¬ DEBOUNCE_MS ≤ now - last := by
      show ¬ (15 : Nat) ≤ now - last
      omega
    simp only [debounceStep]
    rw [if_neg hn]
  · simp [debounceRun, debounceStep, DEBOUNCE_MS]
  · have hn : ¬ DEBOUNCE_MS ≤ t - t0 := by
      show ¬ (15 : Nat) ≤ t - t0
      omega
    simp only [debounceStep]
    rw [if_neg hn]

/-- Witness for C6: a burst starting at time 100 with an in-window
event at time 105 and a later in-window event at time 110. -/
theorem C6_witness :
    debounceStep (some 100) 105 (Poll.Ready (some KeypinEvent.Up)) =
      (Poll.Pending, some 100) ∧
    debounceRun none
        [(100, Poll.Ready (some KeypinEvent.Down)),
         (100 + 3, Poll.Ready (some KeypinEvent.Up)),
         (100 + 6, Poll.Ready (some KeypinEvent.Down))] =
      ([(100, KeypinEvent.Down)], some 100) ∧
    debounceStep (some 100) 110 (Poll.Ready (some KeypinEvent.Down)) =
      (Poll.Pending, some 100) :=
  C6_debounce_burst_discards 100 100 105 110 KeypinEvent.Up KeypinEvent.Down
    (by decide) (by decide)

/-- Claim C10: the final decode-error branch of `read_sync_message` is
unreachable: whenever the registry recognizes the tag, `from_bytes` on
the assembled tag-plus-payload slice returns `some`, and whenever the
tag is registered and all payload reads succeed, `read_sync_message`
returns `Ok` (never the failed-to-decode error). -/
theorem C10_decode_error_branch_unreachable :
    (∀ t n, SyncMessage.msg_len t = some n →
      ∀ payload : List Nat, payload.length = n →
        ∃ m, SyncMessage.from_bytes (assembleFrame t payload) = some m) ∧
    (∀ (f : ByteSource) (t n n' : Nat) (payload : List Nat),
      f 0 = Except.ok t → SyncMessage.msg_len t = some n →
      readPayloadFrom f 0 n = (Except.ok payload, n') →
      ∃ m, read_sync_message f = (Except.ok m, 1 + n')) := by
  refine ⟨fun t n h payload hlen =>
    from_bytes_assembleFrame_registered t n h payload hlen, ?_⟩
  intro f t n n' payload h1 h2 h3
  obtain ⟨hlen, _⟩ := readPayloadFrom_ok_spec f n 0 payload n' h3
  obtain ⟨m, hm⟩ := from_bytes_assembleFrame_registered t n h2 payload hlen
  exact ⟨m, by simp only [read_sync_message, h1, h2, h3, hm]⟩

/-- Witness for C10: the registered tag 1 with a one-byte payload, and a
byte source delivering tag 1 then payload byte 42. -/
theorem C10_witness :
    (∃ m, SyncMessage.from_bytes (assembleFrame 1 [42]) = some m) ∧
    (∃ m, read_sync_message (fun k => Except.ok (if k = 0 then 1 else 42)) =
      (Except.ok m, 1 + 1)) :=
  ⟨C10_decode_error_branch_unreachable.1 1 1 rfl [42] rfl,
   C10_decode_error_branch_unreachable.2
     (fun k => Except.ok (if k = 0 then 1 else 42)) 1 1 1 [42] rfl rfl rfl⟩

/-- From any pin state, the emitted events strictly alternate starting
with the event determined by that state. -/
theorem keypinRun_alternates :
    ∀ (edges : List RawEdge) (is_down : Bool),
      alternatingFrom (nextEmit is_down) (keypinRun is_down edges) = true := by
  intro edges
  induction edges with
  | nil => intro is_down; cases is_down <;> rfl
  | cons e rest ih =>
    intro is_down
    cases is_down with
    | false =>
      cases e with
      | Falling =>
        have h := ih true
        simp only [nextEmit, if_pos, if_neg] at h ⊢
        simpa [keypinRun, keypinStep, alternatingFrom, otherEvent] using h
      | Rising =>
        have h := ih false
        simpa [keypinRun, keypinStep, nextEmit] using h
    | true =>
      cases e with
      | Rising =>
        have h := ih false
        simpa [keypinRun, keypinStep, alternatingFrom, otherEvent, nextEmit] using h
      | Falling =>
        have h := ih true
        simpa [keypinRun, keypinStep, nextEmit] using h

/-- Claim C7: for any sequence of raw edges fed to one `Keypin`
(initial state: released), the emitted events strictly alternate
Down/Up starting with Down. -/
theorem C7_keypin_alternates_starting_down (edges : List RawEdge) :
    alternatingFrom KeypinEvent.Down (keypinRun false edges) = true :=
  keypinRun_alternates edges false

/-- Scanning a pin list whose prefix is not ready and whose next pin is
ready returns that pin's tagged event, consumes one poll from the
prefix and the ready pin, and leaves every later pin untouched. -/
theorem matrixPollNext_first_ready :
    ∀ (pre : List DebouncedPin) (p : DebouncedPin) (post : List DebouncedPin)
      (e : KeypinEvent) (tl : List (Poll (Option KeypinEvent))),
      (∀ q ∈ pre, headReady q = false) →
      p.polls = Poll.Ready (some e) :: tl →
      matrixPollNext (pre ++ p :: post) =
        (Poll.Ready (some (toMatrixEvent e p.label p.keycode)),
         pre.map (fun q => (pinPoll q).2) ++ { p with polls := tl } :: post) := by
  intro pre
  induction pre with
  | nil =>
    intro p post e tl _ hp
    simp [matrixPollNext, pinPoll, hp]
  | cons q pre ih =>
    intro p post e tl hnr hp
    have hq : headReady q = false := hnr q (List.mem_cons_self _ _)
    have hrest : ∀ q' ∈ pre, headReady q' = false :=
      fun q' hq' => hnr q' (List.mem_cons_of_mem _ hq')
    have hih := ih p post e tl hrest hp
    cases hqp : q.polls with
    | nil => simp [matrixPollNext, pinPoll, hqp, hih]
    | cons r0 rtl =>
      cases r0 with
      | Pending => simp [matrixPollNext, pinPoll, hqp, hih]
      | Ready item =>
        cases item with
        | none => simp [matrixPollNext, pinPoll, hqp, hih]
        | some ev =>
          exfalso
          simp [headReady, hqp] at hq

/-- Scanning a pin list with no ready pin returns `Pending` after
consuming one poll from every pin. -/
theorem matrixPollNext_none_ready :
    ∀ (pins : List DebouncedPin),
      (∀ q ∈ pins, headReady q = false) →
      matrixPollNext pins = (Poll.Pending, pins.map (fun q => (pinPoll q).2)) := by
  intro pins
  induction pins with
  | nil => intro _; rfl
  | cons q rest ih =>
    intro h
    have hq : headReady q = false := h q (List.mem_cons_self _ _)
    have hih := ih (fun q' h' => h q' (List.mem_cons_of_mem _ h'))
    cases hqp : q.polls with
    | nil => simp [matrixPollNext, pinPoll, hqp, hih]
    | cons r0 rtl =>
      cases r0 with
      | Pending => simp [matrixPollNext, pinPoll, hqp, hih]
      | Ready item =>
        cases item with
        | none => simp [matrixPollNext, pinPoll, hqp, hih]
        | some ev =>
          exfalso
          simp [headReady, hqp] at hq

/-- Claim C5: on each scan attempt `Matrix::poll_next` polls pins in
fixed ascending index order and returns the first ready pin's event,
tagged with that pin's label and keycode, without polling any later
pin (their poll streams are untouched); hence when two pins are ready
in one attempt the lower-index pin's event is emitted and the
higher-index pin's event is emitted on the subsequent attempt; and when
no pin is ready the scan returns `Pending`. -/
theorem C5_matrix_first_ready_priority
    (pre mid post pins : List DebouncedPin) (p pj : DebouncedPin)
    (e ej : KeypinEvent) (tl tlj : List (Poll (Option KeypinEvent)))
    (h1 : ∀ q ∈ pre, headReady q = false)
    (hp : p.polls = Poll.Ready (some e) :: tl)
    (h2 : ∀ q ∈ pre.map (fun q => (pinPoll q).2) ++ { p with polls := tl } :: mid,
      headReady q = false)
    (hpj : pj.polls = Poll.Ready (some ej) :: tlj)
    (hall : ∀ q ∈ pins, headReady q = false) :
    matrixPollNext (pre ++ p :: (mid ++ pj :: post)) =
      (Poll.Ready (some (toMatrixEvent e p.label p.keycode)),
       pre.map (fun q => (pinPoll q).2) ++
         { p with polls := tl } :: (mid ++ pj :: post)) ∧
    (matrixPollNext ((matrixPollNext (pre ++ p :: (mid ++ pj :: post))).2)).1 =
      Poll.Ready (some (toMatrixEvent ej pj.label pj.keycode)) ∧
    matrixPollNext pins = (Poll.Pending, pins.map (fun q => (pinPoll q).2)) := by
  have hfirst := matrixPollNext_first_ready pre p (mid ++ pj :: post) e tl h1 hp
  refine ⟨hfirst, ?_, matrixPollNext_none_ready pins hall⟩
  rw [hfirst]
  have hassoc :
      pre.map (fun q => (pinPoll q).2) ++
          { p with polls := tl } :: (mid ++ pj :: post) =
        (pre.map (fun q => (pinPoll q).2) ++ { p with polls := tl } :: mid) ++
          pj :: post := by
    simp [List.append_assoc]
  rw [hassoc, matrixPollNext_first_ready _ pj post ej tlj h2 hpj]

/-- Witness for C5: pin 0 pending, pin 2 ready with Down, pin 3 ready
with Up in the same attempt; plus a no-ready scan over one exhausted
pin. -/
theorem C5_witness :
    matrixPollNext
        ([⟨"0", none, [Poll.Pending]⟩] ++
          ⟨"2", some 'q', [Poll.Ready (some KeypinEvent.Down), Poll.Pending]⟩ ::
            ([] ++ ⟨"3", some 'j', [Poll.Ready (some KeypinEvent.Up)]⟩ :: [])) =
      (Poll.Ready (some (toMatrixEvent KeypinEvent.Down "2" (some 'q'))),
       [⟨"0", none, [Poll.Pending]⟩].map (fun q => (pinPoll q).2) ++
         ⟨"2", some 'q', [Poll.Pending]⟩ ::
           ([] ++ ⟨"3", some 'j', [Poll.Ready (some KeypinEvent.Up)]⟩ :: [])) ∧
    (matrixPollNext ((matrixPollNext
        ([⟨"0", none, [Poll.Pending]⟩] ++
          ⟨"2", some 'q', [Poll.Ready (some KeypinEvent.Down), Poll.Pending]⟩ ::
            ([] ++ ⟨"3", some 'j', [Poll.Ready (some KeypinEvent.Up)]⟩ :: []))).2)).1 =
      Poll.Ready (some (toMatrixEvent KeypinEvent.Up "3" (some 'j'))) ∧
    matrixPollNext [⟨"4", none, []⟩] =
      (Poll.Pending, [⟨"4", none, []⟩].map (fun q => (pinPoll q).2)) :=
  C5_matrix_first_ready_priority
    [⟨"0", none, [Poll.Pending]⟩] [] [] [⟨"4", none, []⟩]
    ⟨"2", some 'q', [Poll.Ready (some KeypinEvent.Down), Poll.Pending]⟩
    ⟨"3", some 'j', [Poll.Ready (some KeypinEvent.Up)]⟩
    KeypinEvent.Down KeypinEvent.Up [Poll.Pending] []
    (by decide) rfl (by decide) rfl (by decide)

/-- If the line is low on `[t, t + d)` and high at `t + d`, the spin
exits exactly at `t + d`. -/
theorem firstHighFrom_exit :
    ∀ (d : Nat) (level : Nat → Bool) (t fuel : Nat),
      (∀ u, t ≤ u → u < t + d → level u = false) →
      level (t + d) = true →
      d < fuel →
      firstHighFrom level t fuel = some (t + d) := by
  intro d
  induction d with
  | zero =>
    intro level t fuel _ hhigh hfuel
    cases fuel with
    | zero => omega
    | succ k =>
      have h : level t = true := by simpa using hhigh
      simp [firstHighFrom, h]
  | succ d ih =>
    intro level t fuel hlow hhigh hfuel
    cases fuel with
    | zero => omega
    | succ k =>
      have h0 : level t = false := hlow t le_rfl (by omega)
      have hh : level (t + 1 + d) = true := by
        rw [show t + 1 + d = t + (d + 1) from by omega]
        exact hhigh
      have hlow' : ∀ u, t + 1 ≤ u → u < t + 1 + d → level u = false :=
        fun u hu1 hu2 => hlow u (by omega) (by omega)
      have hres := ih level (t + 1) k hlow' hh (by omega)
      have heq : t + 1 + d = t + (d + 1) := by omega
      simp only [firstHighFrom, h0]
      rw [hres, heq]
      simp

/-- Claim C8: in the `primary` loop, every decode error is non-fatal
(logged, channel untouched, loop continues, no retry of the lost
frame); every decoded message is pushed onto the bounded
capacity-`RX_CHANNEL_CAPACITY` outbound channel when a slot is free;
and no input ever makes the loop terminate or propagate an error. -/
theorem C8_primary_loop_nonfatal (e : String) (m : SyncMessage)
    (chan chan' : List SyncMessage) (res : Except String SyncMessage)
    (hspace : chan'.length < RX_CHANNEL_CAPACITY) :
    primaryIter (Except.error e) chan = PrimaryStep.continued (some e) chan ∧
    primaryIter (Except.ok m) chan' =
      PrimaryStep.continued none (chan' ++ [m]) ∧
    ∀ err, primaryIter res chan ≠ PrimaryStep.terminated err := by
  refine ⟨rfl, ?_, ?_⟩
  · simp [primaryIter, channelSend, hspace]
  · intro err
    cases res with
    | error e' => simp [primaryIter]
    | ok m' =>
      by_cases h : chan.length < RX_CHANNEL_CAPACITY <;>
        simp [primaryIter, channelSend, h]

/-- Witness for C8 with an empty channel, the Test message 42 and a
parity-failure input. -/
theorem C8_witness :
    primaryIter (Except.error "parity check failed") [] =
      PrimaryStep.continued (some "parity check failed") [] ∧
    primaryIter (Except.ok (SyncMessage.Test 42)) [] =
      PrimaryStep.continued none ([] ++ [SyncMessage.Test 42]) ∧
    ∀ err, primaryIter (Except.ok (SyncMessage.Test 42)) [] ≠
      PrimaryStep.terminated err :=
  C8_primary_loop_nonfatal "parity check failed" (SyncMessage.Test 42)
    [] [] (Except.ok (SyncMessage.Test 42)) (by decide)

/-- Claim C9: the receiver's busy-wait between the sync pulse's falling
edge (observed at `t0`, during the sender's low pulse that began at
`tstart`) and the pulse's release terminates: it exits exactly when the
sender releases the line one bit period into the pulse, so it spins for
at most one bit period, under the claimed bound of roughly 1.5 bit
periods. -/
theorem C9_spin_terminates_bounded (byte : Fin 256) (tstart t0 : Nat)
    (h1 : tstart ≤ t0) (h2 : t0 < tstart + BIT_DELAY_NS) :
    firstHighFrom (fun u => send_byte_level byte.val (u - tstart)) t0
        (2 * BIT_DELAY_NS) = some (tstart + BIT_DELAY_NS) ∧
    tstart + BIT_DELAY_NS - t0 ≤ BIT_DELAY_NS + BIT_DELAY_NS / 2 := by
  have hB : 0 < BIT_DELAY_NS := by decide
  constructor
  · have hlow : ∀ u, t0 ≤ u → u < t0 + (tstart + BIT_DELAY_NS - t0) →
        (fun u => send_byte_level byte.val (u - tstart)) u = false := by
      intro u hu1 hu2
      have hu3 : u - tstart < BIT_DELAY_NS := by omega
      simp only [send_byte_level]
      rw [if_pos hu3]
    have hhigh :
        (fun u => send_byte_level byte.val (u - tstart))
          (t0 + (tstart + BIT_DELAY_NS - t0)) = true := by
      have harg : t0 + (tstart + BIT_DELAY_NS - t0) - tstart = BIT_DELAY_NS := by
        omega
      simp only [harg, send_byte_level]
      rw [if_neg (by omega), if_pos (by omega)]
    have hres := firstHighFrom_exit (tstart + BIT_DELAY_NS - t0)
      (fun u => send_byte_level byte.val (u - tstart)) t0
      (2 * BIT_DELAY_NS) hlow hhigh (by omega)
    rw [hres, show t0 + (tstart + BIT_DELAY_NS - t0) = tstart + BIT_DELAY_NS
      from by omega]
  · omega

/-- Witness for C9 at byte 0 with the falling edge observed at the very
start of the pulse. -/
theorem C9_witness :
    firstHighFrom (fun u => send_byte_level (0 : Fin 256).val (u - 0)) 0
        (2 * BIT_DELAY_NS) = some (0 + BIT_DELAY_NS) ∧
    0 + BIT_DELAY_NS - 0 ≤ BIT_DELAY_NS + BIT_DELAY_NS / 2 :=
  C9_spin_terminates_bounded 0 0 0 (by decide) (by decide)
